import Mathlib

/-!
Verification of the HDFS path abstraction (`hdfs_path.py`) against its
specification.  The stateful session operations (`fs`, `close`, `getcwd`,
`chdir`, `listdir`, context enter/exit) are embedded from `src/hdfs_path.py`;
the external filesystem-client capability (pydoop) is modelled from the
spec's External Interfaces section as an explicit world state with an event
trace.  The pure path algebra (`join`, `normalize`, `relativeTo`) lives in
the generic base path module of this repository, which is not under `src/`,
so those definitions are modelled from the spec (sections 4.1 and 4.2).
-/

/-- The host/port pair identifying which remote filesystem a path belongs to. -/
structure Authority where
  host : String
  port : Nat
deriving DecidableEq, Repr

/-- Modelled from the spec: a PathValue is an immutable value with an optional
authority (host, port), an absoluteness flag and an ordered list of
`/`-separated segments (spec section 3, Data Model). -/
@[ext]
structure PathValue where
  authority : Option Authority
  absolute : Bool
  segs : List String
deriving DecidableEq, Repr

namespace PathValue

/-- One normalization step on a segment accumulator: drop empty and `.`
segments, resolve `..` against the accumulated segments (a `..` at an
established root is a no-op), keep ordinary segments. -/
def normStep (acc : List String) (s : String) : List String :=
  if s = "" ∨ s = "." then acc
  else if s = ".." then acc.dropLast
  else acc ++ [s]

/-- Run normalization over a segment list starting from an accumulator. -/
def normFrom (acc : List String) (l : List String) : List String :=
  l.foldl normStep acc

/-- Modelled from the spec: `normalize` collapses `.`/`..` and duplicate
separators; `..` at an established root is a no-op (spec section 4.1). -/
def normalizeSegs (l : List String) : List String :=
  normFrom [] l

/-- Normalization of a PathValue: authority and absoluteness are kept,
segments are normalized. -/
def normalize (p : PathValue) : PathValue :=
  { p with segs := normalizeSegs p.segs }

/-- Modelled from the spec: `join` concatenates segments; a right-hand
operand that is itself absolute (has its own authority or starts at root)
replaces the accumulated path (spec section 4.1). -/
def join (a b : PathValue) : PathValue :=
  if b.authority.isSome ∨ b.absolute then b
  else { a with segs := a.segs ++ b.segs }

/-- Join a single child entry name onto a directory path (the `/` operator
applied to a bare name). -/
def joinChild (a : PathValue) (n : String) : PathValue :=
  join a { authority := none, absolute := false, segs := [n] }

/-- Length of the longest common prefix of two segment lists. -/
def cplen : List String → List String → Nat
  | a :: as, b :: bs => if a = b then cplen as bs + 1 else 0
  | _, _ => 0

/-- The segments of a relative expression from source segments `sa` to
destination segments `sb` (both already normalized): `..` for each source
segment past the longest common prefix, then the destination's remaining
segments; `.` when nothing remains. -/
def relSegs (sa sb : List String) : List String :=
  if (List.replicate (sa.length - cplen sa sb) ".." ++
      sb.drop (cplen sa sb)).isEmpty
  then ["."]
  else List.replicate (sa.length - cplen sa sb) ".." ++
       sb.drop (cplen sa sb)

/-- Modelled from the spec: the relative-path algorithm (spec section 4.2).
If the two paths share an authority, decompose both into normalized segment
sequences, take the longest common prefix, and produce `..` for each
remaining source segment followed by the destination's remaining segments
(`.` when nothing remains).  If the authorities differ, the destination is
unreachable via a relative expression and is returned unchanged. -/
def relativeTo (source dest : PathValue) : PathValue :=
  if source.authority = dest.authority then
    { authority := none, absolute := false,
      segs := relSegs (normalizeSegs source.segs) (normalizeSegs dest.segs) }
  else dest

/-- String rendering of a relative path's segments (used to state the
concrete scenarios of the spec, e.g. `"b0/c"` and `"../.."`). -/
def render (p : PathValue) : String :=
  String.intercalate "/" p.segs

end PathValue

/-! ### Unix shell-style wildcard matching (model of `fnmatch`)

`listdir` filters entry names with Python's `fnmatch` (an external stdlib
collaborator): `*` matches any run of characters, `?` any single character,
`[...]` a character class with optional leading `!` negation and `a-b`
ranges, an unterminated `[` is a literal character.  The matcher is
anchored at both ends. -/

/-- A compiled wildcard-pattern token. -/
inductive Tok where
  | star : Tok
  | quest : Tok
  | lit (c : Char) : Tok
  | cls (neg : Bool) (items : List Char) : Tok
deriving DecidableEq, Repr

/-- Scan for the closing `]` of a character class; returns the class body
and the remainder of the pattern, or `none` if the class is unterminated. -/
def findClose : List Char → Option (List Char × List Char)
  | [] => none
  | ']' :: r => some ([], r)
  | c :: r =>
    match findClose r with
    | some (body, rest) => some (c :: body, rest)
    | none => none

/-- Compile a wildcard pattern into tokens (fuelled; the fuel is the pattern
length, which always suffices because every step consumes at least one
character). -/
def compilePatF : Nat → List Char → List Tok
  | _, [] => []
  | 0, _ => []
  | f + 1, '*' :: r => .star :: compilePatF f r
  | f + 1, '?' :: r => .quest :: compilePatF f r
  | f + 1, '[' :: r =>
    let (neg, r1) :=
      match r with
      | '!' :: t => (true, t)
      | _ => (false, r)
    (match r1 with
     | ']' :: t =>
       match findClose t with
       | some (body, rest) => .cls neg (']' :: body) :: compilePatF f rest
       | none => .lit '[' :: compilePatF f r
     | _ =>
       match findClose r1 with
       | some (body, rest) => .cls neg body :: compilePatF f rest
       | none => .lit '[' :: compilePatF f r)
  | f + 1, c :: r => .lit c :: compilePatF f r

/-- Compile a wildcard pattern into tokens. -/
def compilePat (l : List Char) : List Tok :=
  compilePatF l.length l

/-- Character-class membership: `a-b` denotes a range, other characters
match themselves. -/
def inClass : List Char → Char → Bool
  | [], _ => false
  | a :: '-' :: b :: rest, c =>
    ((a ≤ c && c ≤ b) : Bool) || inClass rest c
  | a :: rest, c => (a = c : Bool) || inClass rest c

/-- Token-list matcher (fuelled; every recursive call shrinks the combined
length of pattern and string, so `lengths + 1` fuel always suffices). -/
def toksMatchF : Nat → List Tok → List Char → Bool
  | 0, _, _ => false
  | _ + 1, [], s => s.isEmpty
  | f + 1, .star :: ps, [] => toksMatchF f ps []
  | f + 1, .star :: ps, c :: cs =>
    toksMatchF f ps (c :: cs) || toksMatchF f (.star :: ps) cs
  | f + 1, .quest :: ps, _ :: cs => toksMatchF f ps cs
  | f + 1, .lit p :: ps, c :: cs => (p = c : Bool) && toksMatchF f ps cs
  | f + 1, .cls neg items :: ps, c :: cs =>
    (inClass items c != neg) && toksMatchF f ps cs
  | _ + 1, _ :: _, [] => false

/-- `fnmatch name pattern`: anchored Unix shell-style wildcard match of an
entry name against a pattern. -/
def fnmatch (name pattern : String) : Bool :=
  toksMatchF (pattern.length + name.length + 1) (compilePat pattern.toList)
    name.toList

/-! ### The filesystem world and the session state

`HdfsPath` objects carry a lazily bound client handle (`self.__fs`).  The
external filesystem-client capability (pydoop) is modelled from the spec
(section 6): `connect(host, port)` yields a fresh handle or a connection
error, a handle has a working directory and can be closed.  The world keeps
an event trace so that connection opens/closes and working-directory writes
are observable. -/

/-- Errors surfaced to the caller (spec section 7 taxonomy).
`crossFilesystemError` models the `RuntimeError('trying to chdir across
filesystems')` raised by `chdir`; `notADirectory p` models the
`OSError(errno.ENOTDIR, ..., p)` raised by `listdir`; `closedHandle` models
the failure of the external client when an operation is attempted on an
already closed handle. -/
inductive Err where
  | connectionError : Err
  | crossFilesystemError : Err
  | notADirectory (p : PathValue) : Err
  | closedHandle : Err
deriving DecidableEq, Repr

/-- Observable events of the external capability. -/
inductive Event where
  | opened (a : Authority) (id : Nat) : Event
  | closed (id : Nat) : Event
  | setWd (id : Nat) (target : PathValue) : Event
  | listed (d : PathValue) : Event
deriving DecidableEq, Repr

/-- A live (or closed) client handle: connection id, bound authority,
client-side working directory, closed flag. -/
structure ClientHandle where
  id : Nat
  auth : Authority
  wd : PathValue
  closed : Bool
deriving DecidableEq, Repr

/-- The external world: which authorities are reachable, the default
authority used for paths without one, the working directory a fresh
connection starts with, the remote namespace (directory test and entry
names), a counter for connection ids and the event trace. -/
structure FsWorld where
  reachable : Authority → Bool
  defaultAuth : Authority
  initialWd : Authority → PathValue
  isDir : PathValue → Bool
  children : PathValue → List String
  nextId : Nat
  trace : List Event

/-- The state of one `HdfsPath` object: the path value itself, the cached
client handle (`self.__fs`, `none` until first resolved) and the saved
working directory (`self._old_dir`, set by `__enter__`). -/
structure Session where
  p : PathValue
  fs : Option ClientHandle := none
  oldDir : Option PathValue := none
deriving DecidableEq, Repr

/-- The authority a path resolves to: its own authority, or the world's
default when it has none (`self.module.split`). -/
def authorityOf (w : FsWorld) (p : PathValue) : Authority :=
  p.authority.getD w.defaultAuth

namespace HdfsPath

/-- Modelled from the spec: `connect(host, port)` of the external client
capability; a fresh handle on a reachable authority, `ConnectionError`
otherwise.  A successful connect is recorded in the trace. -/
def connect (w : FsWorld) (a : Authority) :
    Except Err ClientHandle × FsWorld :=
  if w.reachable a then
    (.ok { id := w.nextId, auth := a, wd := w.initialWd a, closed := false },
     { w with nextId := w.nextId + 1,
              trace := w.trace ++ [.opened a w.nextId] })
  else (.error .connectionError, w)

/-- Modelled from the spec: `ClientHandle.close()`; releases the connection
and records the close; closing an already closed handle has no further
effect. -/
def handleClose (h : ClientHandle) (w : FsWorld) : ClientHandle × FsWorld :=
  if h.closed then (h, w)
  else ({ h with closed := true },
        { w with trace := w.trace ++ [.closed h.id] })

/-- The `fs` property: return the cached client handle, resolving it (one
`connect` to this path's authority) on first use.  The connected handle is
cached on the session. -/
def fs (s : Session) (w : FsWorld) :
    Except Err ClientHandle × Session × FsWorld :=
  match s.fs with
  | some h => (.ok h, s, w)
  | none =>
    match connect w (authorityOf w s.p) with
    | (.ok h, w') => (.ok h, { s with fs := some h }, w')
    | (.error e, w') => (.error e, s, w')

/-- `getcwd`: query the resolved client for its working directory. -/
def getcwd (s : Session) (w : FsWorld) :
    Except Err PathValue × Session × FsWorld :=
  match fs s w with
  | (.ok h, s', w') =>
    if h.closed then (.error .closedHandle, s', w')
    else (.ok h.wd, s', w')
  | (.error e, s', w') => (.error e, s', w')

/-- `ClientHandle.setWorkingDirectory` on the session's cached handle:
updates the client-side working directory and records the write. -/
def setWd (s : Session) (w : FsWorld) (target : PathValue) :
    Except Err Unit × Session × FsWorld :=
  match s.fs with
  | some h =>
    if h.closed then (.error .closedHandle, s, w)
    else (.ok (), { s with fs := some { h with wd := target } },
          { w with trace := w.trace ++ [.setWd h.id target] })
  | none => (.error .closedHandle, s, w)

/-- `chdir(path)`: change the working directory to `path` (to this path when
`path` is `none`).  Embeds the source: split the target to its authority,
open a temporary connection to it (`with hdfs.hdfs(host, port) as fs`),
compare that connection's authority with the session's own client, raise the
cross-filesystem error if they differ, otherwise set the session client's
working directory; the temporary connection is closed on every exit of the
`with` block. -/
def chdir (s : Session) (w : FsWorld) (pOpt : Option PathValue) :
    Except Err Unit × Session × FsWorld :=
  let target := pOpt.getD s.p
  match connect w (authorityOf w target) with
  | (.error e, w1) => (.error e, s, w1)
  | (.ok tmp, w1) =>
    match fs s w1 with
    | (.error e, s1, w2) =>
      let (_, w3) := handleClose tmp w2
      (.error e, s1, w3)
    | (.ok own, s1, w2) =>
      if tmp.auth = own.auth then
        match setWd s1 w2 target with
        | (r, s2, w3) =>
          let (_, w4) := handleClose tmp w3
          (r, s2, w4)
      else
        let (_, w3) := handleClose tmp w2
        (.error .crossFilesystemError, s1, w3)

/-- `close()`: close the cached client handle if one is present.  The cached
handle is *not* cleared from the session. -/
def close (s : Session) (w : FsWorld) : Session × FsWorld :=
  match s.fs with
  | none => (s, w)
  | some h =>
    let (h', w') := handleClose h w
    ({ s with fs := some h' }, w')

/-- `listdir(pattern)`: fail with the not-a-directory error when the path is
not a directory; otherwise list the entry names (basenames of `hdfs.ls`),
keep those whose name matches the pattern (default `"*"`) and join each
kept name onto this path. -/
def listdir (s : Session) (w : FsWorld) (pattern : Option String) :
    Except Err (List PathValue) × Session × FsWorld :=
  let pat := pattern.getD "*"
  if w.isDir s.p then
    (.ok (((w.children s.p).filter (fun n => fnmatch n pat)).map
        (PathValue.joinChild s.p)), s,
     { w with trace := w.trace ++ [.listed s.p] })
  else (.error (.notADirectory s.p), s, w)

/-- `__enter__`: save the current working directory, then change the working
directory to this path. -/
def enter (s : Session) (w : FsWorld) :
    Except Err Unit × Session × FsWorld :=
  match getcwd s w with
  | (.error e, s1, w1) => (.error e, s1, w1)
  | (.ok d0, s1, w1) => chdir { s1 with oldDir := some d0 } w1 none

/-- `__exit__`: restore the saved working directory, then close the
session's connection. -/
def scopeExit (s : Session) (w : FsWorld) :
    Except Err Unit × Session × FsWorld :=
  match chdir s w s.oldDir with
  | (.error e, s1, w1) => (.error e, s1, w1)
  | (.ok _, s1, w1) =>
    let (s2, w2) := close s1 w1
    (.ok (), s2, w2)

/-- The `with` statement over a path: run `__enter__`; when it succeeds run
the body; run `__exit__` on every exit of the scope.  `__exit__` returns a
falsy value, so an error raised by the body is never suppressed: it
propagates after the restore and close have run (an error raised by
`__exit__` itself replaces the body's outcome, as in Python). -/
def withPath {α : Type} (s : Session) (w : FsWorld)
    (body : Session → FsWorld → Except Err α × Session × FsWorld) :
    Except Err α × Session × FsWorld :=
  match enter s w with
  | (.error e, s1, w1) => (.error e, s1, w1)
  | (.ok _, s1, w1) =>
    let (r, s2, w2) := body s1 w1
    match scopeExit s2 w2 with
    | (.error e2, s3, w3) => (.error e2, s3, w3)
    | (.ok _, s3, w3) => (r, s3, w3)

end HdfsPath

/-! ### Concrete fixtures used by the claims' scenarios -/

/-- The authority of the spec's concrete scenario 1 (`fs://host:1/`). -/
def specAuthority : Authority := ⟨"host", 1⟩

/-- `fs://host:1/`, the root of concrete scenario 1. -/
def specRoot : PathValue := ⟨some specAuthority, true, []⟩

/-- `fs://host:1/b0/c`. -/
def specB0C : PathValue := ⟨some specAuthority, true, ["b0", "c"]⟩

/-- `fs://host:1/b1`. -/
def specB1 : PathValue := ⟨some specAuthority, true, ["b1"]⟩

/-- A root on a different authority (`hdfs://foo:1/` in the test suite). -/
def foreignRoot : PathValue := ⟨some ⟨"foo", 1⟩, true, []⟩

/-- A second remote authority, used for cross-filesystem scenarios. -/
def authB : Authority := ⟨"other", 9000⟩

/-- A concrete path on the session's own authority. -/
def pA : PathValue := ⟨some specAuthority, true, ["user", "me", "x"]⟩

/-- The working directory a fresh connection to `specAuthority` starts in. -/
def wdA : PathValue := ⟨some specAuthority, true, ["user", "me"]⟩

/-- A concrete path on the foreign authority `authB`. -/
def pB : PathValue := ⟨some authB, true, ["data"]⟩

/-- A live handle on `specAuthority` (connection id 0). -/
def hA : ClientHandle := ⟨0, specAuthority, wdA, false⟩

/-- A session on `pA` whose client is already bound to `hA`. -/
def sBound : Session := ⟨pA, some hA, none⟩

/-- A fresh session on `pA` (no client resolved yet). -/
def sFresh : Session := ⟨pA, none, none⟩

/-- A world in which every authority is reachable and one connection
(id 0) has already been opened. -/
def w0 : FsWorld :=
  ⟨fun _ => true, specAuthority,
   fun a => ⟨some a, true, ["user", "me"]⟩,
   fun _ => true, fun _ => [], 1, [Event.opened specAuthority 0]⟩

/-- A world in which only `specAuthority` is reachable and no connection
has been opened yet. -/
def wOnlyA : FsWorld :=
  ⟨fun a => a == specAuthority, specAuthority,
   fun a => ⟨some a, true, ["user", "me"]⟩,
   fun _ => true, fun _ => [], 0, []⟩

/-- The directory of the spec's concrete scenario 2. -/
def listDirP : PathValue := ⟨some specAuthority, true, ["ldir"]⟩

/-- A session on the listing directory. -/
def sList : Session := ⟨listDirP, none, none⟩

/-- The world of concrete scenario 2: `listDirP` is a directory containing
`foo`, `bar`, `tar`, `foo.ext`, `bar.ext`, `tar.ext`; a path equal to one of
its file entries is not a directory. -/
def wList : FsWorld :=
  ⟨fun _ => true, specAuthority,
   fun a => ⟨some a, true, ["user", "me"]⟩,
   fun q => q == listDirP,
   fun q => if q = listDirP
            then ["foo", "bar", "tar", "foo.ext", "bar.ext", "tar.ext"]
            else [],
   0, []⟩

/-- A session on one of the file entries of `listDirP` (not a directory). -/
def sNotDir : Session := ⟨PathValue.joinChild listDirP "foo.ext", none, none⟩

/-- The frame condition a scope body must satisfy for the scoped-acquisition
theorem: it keeps the saved directory and the session's binding to an open
handle on the session's authority, and does not change the world's
connectivity configuration.  (Arbitrary Lean functions could otherwise
rebind the session to a foreign filesystem or unplug the network, which no
sequence of path operations inside the scope does.) -/
def FrameBody {α : Type} (a : Authority) (reach : Authority → Bool)
    (dflt : Authority) (init : Authority → PathValue)
    (body : Session → FsWorld → Except Err α × Session × FsWorld) : Prop :=
  ∀ s1 w1 r s2 w2,
    (∃ h1, s1.fs = some h1 ∧ h1.auth = a ∧ h1.closed = false) →
    w1.reachable = reach → w1.defaultAuth = dflt → w1.initialWd = init →
    body s1 w1 = (r, s2, w2) →
      s2.oldDir = s1.oldDir ∧
      (∃ h2, s2.fs = some h2 ∧ h2.auth = a ∧ h2.closed = false) ∧
      w2.reachable = reach ∧ w2.defaultAuth = dflt ∧ w2.initialWd = init

/-- The trivial scope body: does nothing and returns normally. -/
def idBody : Session → FsWorld → Except Err Unit × Session × FsWorld :=
  fun s w => (.ok (), s, w)

/-- A scope body that raises: models an error thrown inside a `with` block. -/
def raisingBody : Session → FsWorld → Except Err Unit × Session × FsWorld :=
  fun s w => (.error .connectionError, s, w)

/-! ### Basic evaluation checks for the wildcard matcher -/

example : fnmatch "foo" "f*" = true := by decide
example : fnmatch "bar" "f*" = false := by decide
example : fnmatch "foo.ext" "f*" = true := by decide
example : fnmatch "bar" "*ar" = true := by decide
example : fnmatch "bar.ext" "*ar*" = true := by decide
example : fnmatch "tar" "?ar" = true := by decide
example : fnmatch "tar" "[bt]ar" = true := by decide
example : fnmatch "far" "[bt]ar" = false := by decide
example : fnmatch "far" "[!bt]ar" = true := by decide
example : fnmatch "c3" "c[0-9]" = true := by decide

/-! ### Normalization algebra

Helper lemmas about `normalizeSegs`, `cplen` and the relative-path
algorithm, leading to the rejoin property of `relativeTo`. -/

namespace PathValue

/-- A segment list free of empty, `.` and `..` segments (the shape of any
normalized absolute segment sequence). -/
def Clean (l : List String) : Prop :=
  ∀ s ∈ l, s ≠ "" ∧ s ≠ "." ∧ s ≠ ".."

theorem clean_nil : Clean [] := by
  intro s hs
  cases hs

theorem Clean.dropLast {l : List String} (h : Clean l) : Clean l.dropLast :=
  fun s hs => h s ((List.dropLast_sublist l).subset hs)

theorem Clean.drop {l : List String} (h : Clean l) (n : Nat) :
    Clean (l.drop n) :=
  fun s hs => h s (List.drop_subset n l hs)

theorem Clean.tail {l : List String} {s : String} (h : Clean (s :: l)) :
    Clean l :=
  fun t ht => h t (List.mem_cons_of_mem s ht)

theorem normFrom_cons (acc : List String) (x : String) (xs : List String) :
    normFrom acc (x :: xs) = normFrom (normStep acc x) xs := rfl

theorem normFrom_append (acc : List String) (x y : List String) :
    normFrom acc (x ++ y) = normFrom (normFrom acc x) y :=
  List.foldl_append _ _ _ _

theorem normStep_dot (acc : List String) : normStep acc "." = acc := by
  unfold normStep
  rw [if_pos (Or.inr rfl)]

theorem normStep_dotdot (acc : List String) :
    normStep acc ".." = acc.dropLast := by
  unfold normStep
  rw [if_neg (by decide), if_pos rfl]

theorem normStep_ord (acc : List String) {s : String}
    (h1 : s ≠ "") (h2 : s ≠ ".") (h3 : s ≠ "..") :
    normStep acc s = acc ++ [s] := by
  unfold normStep
  rw [if_neg (fun hc => hc.elim h1 h2), if_neg h3]

theorem normStep_clean {acc : List String} (h : Clean acc) (s : String) :
    Clean (normStep acc s) := by
  unfold normStep
  split_ifs with h1 h2
  · exact h
  · exact h.dropLast
  · intro t ht
    rcases List.mem_append.1 ht with ht | ht
    · exact h t ht
    · rw [List.mem_singleton] at ht
      subst ht
      push_neg at h1
      exact ⟨h1.1, h1.2, h2⟩

theorem normFrom_clean {acc : List String} (l : List String) (h : Clean acc) :
    Clean (normFrom acc l) := by
  induction l generalizing acc with
  | nil => exact h
  | cons x xs ih => exact ih (normStep_clean h x)

theorem normalizeSegs_clean (l : List String) : Clean (normalizeSegs l) :=
  normFrom_clean l clean_nil

theorem normFrom_of_clean (acc : List String) {l : List String}
    (h : Clean l) : normFrom acc l = acc ++ l := by
  induction l generalizing acc with
  | nil => simp [normFrom]
  | cons x xs ih =>
    have hx := h x (List.mem_cons_self x xs)
    rw [normFrom_cons, normStep_ord acc hx.1 hx.2.1 hx.2.2, ih _ h.tail,
      List.append_assoc, List.singleton_append]

theorem normFrom_unwind :
    ∀ (r c : List String), normFrom (c ++ r) (List.replicate r.length "..") = c := by
  intro r
  induction r using List.reverseRecOn with
  | nil => intro c; simp [normFrom]
  | append_singleton l a ih =>
    intro c
    rw [List.length_append, List.length_singleton, List.replicate_succ,
      normFrom_cons, normStep_dotdot, ← List.append_assoc,
      List.dropLast_concat]
    exact ih c

theorem cplen_le_left : ∀ a b : List String, cplen a b ≤ a.length := by
  intro a
  induction a with
  | nil => intro b; cases b <;> simp [cplen]
  | cons x xs ih =>
    intro b
    cases b with
    | nil => simp [cplen]
    | cons y ys =>
      unfold cplen
      split_ifs
      · simpa using ih ys
      · simp

theorem cplen_le_right : ∀ a b : List String, cplen a b ≤ b.length := by
  intro a
  induction a with
  | nil => intro b; cases b <;> simp [cplen]
  | cons x xs ih =>
    intro b
    cases b with
    | nil => simp [cplen]
    | cons y ys =>
      unfold cplen
      split_ifs
      · simpa using ih ys
      · simp

theorem take_cplen_eq : ∀ a b : List String,
    a.take (cplen a b) = b.take (cplen a b) := by
  intro a
  induction a with
  | nil => intro b; cases b <;> simp [cplen]
  | cons x xs ih =>
    intro b
    cases b with
    | nil => simp [cplen]
    | cons y ys =>
      unfold cplen
      split_ifs with hxy
      · rw [List.take_succ_cons, List.take_succ_cons, hxy, ih ys]
      · simp

/-- Rejoining a relative path: folding the relative expression produced by
`relativeTo` into the source's normalized segments recovers the
destination's normalized segments. -/
theorem normFrom_rel (sa sb : List String) (hsb : Clean sb) :
    normFrom sa (relSegs sa sb) = sb := by
  unfold relSegs
  set k := cplen sa sb with hk
  by_cases hre :
      (List.replicate (sa.length - k) ".." ++ sb.drop k).isEmpty
  · rw [if_pos hre]
    rw [List.isEmpty_iff, List.append_eq_nil] at hre
    obtain ⟨h1, h2⟩ := hre
    rw [List.replicate_eq_nil_iff, Nat.sub_eq_zero_iff_le] at h1
    rw [List.drop_eq_nil_iff] at h2
    have hka : k = sa.length := le_antisymm (hk ▸ cplen_le_left sa sb) h1
    have hkb : k = sb.length := le_antisymm (hk ▸ cplen_le_right sa sb) h2
    have hlen2 : sa.length = sb.length := hka.symm.trans hkb
    have h := take_cplen_eq sa sb
    rw [← hk, hka, List.take_length, hlen2, List.take_length] at h
    rw [normFrom_cons, normStep_dot]
    exact h
  · rw [if_neg hre]
    rw [normFrom_append]
    have hlen : (sa.drop k).length = sa.length - k := List.length_drop k sa
    have h0 := normFrom_unwind (sa.drop k) (sa.take k)
    rw [List.take_append_drop, hlen] at h0
    have h1 := take_cplen_eq sa sb
    rw [← hk] at h1
    rw [h0, normFrom_of_clean _ (hsb.drop k), h1, List.take_append_drop]

end PathValue

/-- C3: for every pair of absolute paths whose authorities differ, the
relative-path algorithm returns the destination unchanged as an absolute
path, in both directions; the operation is total, hence never raises. -/
theorem relativeTo_cross_authority (s d : PathValue)
    (hne : s.authority ≠ d.authority)
    (hs : s.absolute = true) (hd : d.absolute = true) :
    PathValue.relativeTo s d = d ∧
    (PathValue.relativeTo s d).absolute = true ∧
    PathValue.relativeTo d s = s ∧
    (PathValue.relativeTo d s).absolute = true := by
  have h1 : PathValue.relativeTo s d = d := by
    unfold PathValue.relativeTo
    rw [if_neg hne]
  have h2 : PathValue.relativeTo d s = s := by
    unfold PathValue.relativeTo
    rw [if_neg (fun hc => hne hc.symm)]
  refine ⟨h1, ?_, h2, ?_⟩
  · rw [h1]; exact hd
  · rw [h2]; exact hs

/-- Witness for C3 at the test suite's concrete pair: the working-directory
root relative to `hdfs://foo:1/` (and back) returns the destination. -/
theorem relativeTo_cross_authority_witness :
    specRoot.authority ≠ foreignRoot.authority ∧
    (PathValue.relativeTo specRoot foreignRoot = foreignRoot ∧
     (PathValue.relativeTo specRoot foreignRoot).absolute = true ∧
     PathValue.relativeTo foreignRoot specRoot = specRoot ∧
     (PathValue.relativeTo foreignRoot specRoot).absolute = true) :=
  ⟨by decide, relativeTo_cross_authority specRoot foreignRoot (by decide)
    rfl rfl⟩

/-- C8: rejoining the relative path recovers the destination whenever source
and destination share an authority —
`normalize (join a (relativeTo a b)) = normalize b` — and concretely, for
`root = fs://host:1/`, `relativeTo root (root/b0/c)` is `b0/c` and
`relativeTo (root/b0/c) root` is `../..`. -/
theorem relativeTo_rejoin :
    (∀ a b : PathValue, a.authority = b.authority → a.absolute = true →
        b.absolute = true →
        PathValue.normalize (PathValue.join a (PathValue.relativeTo a b)) =
          PathValue.normalize b) ∧
    PathValue.relativeTo specRoot specB0C =
      { authority := none, absolute := false, segs := ["b0", "c"] } ∧
    (PathValue.relativeTo specRoot specB0C).render = "b0/c" ∧
    PathValue.relativeTo specB0C specRoot =
      { authority := none, absolute := false, segs := ["..", ".."] } ∧
    (PathValue.relativeTo specB0C specRoot).render = "../.." := by
  refine ⟨?_, by decide, rfl, by decide, rfl⟩
  intro a b hauth ha hb
  obtain ⟨rs, hrs⟩ : ∃ rs, PathValue.relSegs (PathValue.normalizeSegs a.segs)
      (PathValue.normalizeSegs b.segs) = rs := ⟨_, rfl⟩
  have h1 : PathValue.relativeTo a b = ⟨none, false, rs⟩ := by
    unfold PathValue.relativeTo
    rw [if_pos hauth, hrs]
  have h2 : PathValue.join a ⟨none, false, rs⟩ =
      { a with segs := a.segs ++ rs } := by
    unfold PathValue.join
    rw [if_neg]
    simp
  have h3 : PathValue.normalizeSegs (a.segs ++ rs) =
      PathValue.normalizeSegs b.segs := by
    have h4 : PathValue.normalizeSegs (a.segs ++ rs) =
        PathValue.normFrom (PathValue.normalizeSegs a.segs) rs :=
      PathValue.normFrom_append [] a.segs rs
    rw [h4, ← hrs]
    exact PathValue.normFrom_rel _ _ (PathValue.normalizeSegs_clean b.segs)
  rw [h1, h2]
  simp only [PathValue.normalize, PathValue.mk.injEq]
  refine ⟨hauth, ?_, h3⟩
  rw [ha, hb]

/-- Witness for C8's universal part at the test's sibling pair
(`b1` relative to `b0/c` on the same authority). -/
theorem relativeTo_rejoin_witness :
    PathValue.normalize
        (PathValue.join specB1 (PathValue.relativeTo specB1 specB0C)) =
      PathValue.normalize specB0C :=
  relativeTo_rejoin.1 specB1 specB0C rfl rfl rfl

/-! ### Reduction lemmas for the session operations -/

namespace HdfsPath

theorem connect_reach (w : FsWorld) (a : Authority)
    (h : w.reachable a = true) :
    connect w a =
      (.ok ⟨w.nextId, a, w.initialWd a, false⟩,
       { w with nextId := w.nextId + 1,
                trace := w.trace ++ [.opened a w.nextId] }) := by
  unfold connect
  rw [if_pos h]

theorem connect_unreach (w : FsWorld) (a : Authority)
    (h : w.reachable a = false) :
    connect w a = (.error .connectionError, w) := by
  unfold connect
  rw [if_neg (by rw [h]; exact Bool.false_ne_true)]

theorem fs_cached (s : Session) (w : FsWorld) (h : ClientHandle)
    (hfs : s.fs = some h) : fs s w = (.ok h, s, w) := by
  unfold fs
  rw [hfs]

theorem fs_fresh (s : Session) (w : FsWorld) (hfs : s.fs = none)
    (hreach : w.reachable (authorityOf w s.p) = true) :
    fs s w =
      (.ok ⟨w.nextId, authorityOf w s.p, w.initialWd (authorityOf w s.p), false⟩,
       { s with fs := some ⟨w.nextId, authorityOf w s.p,
                            w.initialWd (authorityOf w s.p), false⟩ },
       { w with nextId := w.nextId + 1,
                trace := w.trace ++ [.opened (authorityOf w s.p) w.nextId] }) := by
  unfold fs
  rw [hfs, connect_reach w _ hreach]

theorem handleClose_open (h : ClientHandle) (w : FsWorld)
    (hopen : h.closed = false) :
    handleClose h w =
      ({ h with closed := true },
       { w with trace := w.trace ++ [.closed h.id] }) := by
  unfold handleClose
  rw [if_neg (by rw [hopen]; exact Bool.false_ne_true)]

theorem setWd_open (s : Session) (w : FsWorld) (t : PathValue)
    (h : ClientHandle) (hfs : s.fs = some h) (hopen : h.closed = false) :
    setWd s w t =
      (.ok (), { s with fs := some { h with wd := t } },
       { w with trace := w.trace ++ [.setWd h.id t] }) := by
  unfold setWd
  rw [hfs]
  simp only [hopen, Bool.false_eq_true, if_false]

/-- Reduction of a successful same-authority `chdir`: a temporary connection
to the target authority is opened, the session client's working directory is
set, and the temporary connection is closed — in that order. -/
theorem chdir_ok (s : Session) (w : FsWorld) (pOpt : Option PathValue)
    (h : ClientHandle) (hfs : s.fs = some h) (hopen : h.closed = false)
    (hauth : authorityOf w (pOpt.getD s.p) = h.auth)
    (hreach : w.reachable (authorityOf w (pOpt.getD s.p)) = true) :
    chdir s w pOpt =
      (.ok (), { s with fs := some { h with wd := pOpt.getD s.p } },
       { w with nextId := w.nextId + 1,
                trace := w.trace ++
                  [.opened h.auth w.nextId,
                   .setWd h.id (pOpt.getD s.p),
                   .closed w.nextId] }) := by
  unfold chdir
  dsimp only
  rw [connect_reach w _ hreach]
  dsimp only
  rw [fs_cached s _ h hfs]
  dsimp only
  rw [if_pos hauth]
  rw [setWd_open s _ _ h hfs hopen]
  dsimp only
  simp [handleClose, hauth, List.append_assoc]

/-- Reduction of a cross-authority `chdir` against a bound session: the
temporary connection is opened and closed, the cross-filesystem error is
raised, and the session (cached handle, working directory) is untouched. -/
theorem chdir_cross (s : Session) (w : FsWorld) (p : PathValue)
    (h : ClientHandle) (hfs : s.fs = some h)
    (hne : authorityOf w p ≠ h.auth)
    (hreach : w.reachable (authorityOf w p) = true) :
    chdir s w (some p) =
      (.error .crossFilesystemError, s,
       { w with nextId := w.nextId + 1,
                trace := w.trace ++
                  [.opened (authorityOf w p) w.nextId, .closed w.nextId] }) := by
  unfold chdir
  dsimp only [Option.getD_some]
  rw [connect_reach w _ hreach]
  dsimp only
  rw [fs_cached s _ h hfs]
  dsimp only
  rw [if_neg hne]
  simp [handleClose, List.append_assoc]

/-- Reduction of `__exit__` on a session bound to an open handle whose
authority matches the saved directory: restore the saved working directory
(through a temporary connection), then close the session's handle. -/
theorem scopeExit_ok (s : Session) (w : FsWorld) (h : ClientHandle)
    (d0 : PathValue) (hold : s.oldDir = some d0) (hfs : s.fs = some h)
    (hopen : h.closed = false)
    (hauth : authorityOf w d0 = h.auth)
    (hreach : w.reachable (authorityOf w d0) = true) :
    scopeExit s w =
      (.ok (), { s with fs := some { h with wd := d0, closed := true } },
       { w with nextId := w.nextId + 1,
                trace := w.trace ++
                  [.opened h.auth w.nextId, .setWd h.id d0,
                   .closed w.nextId, .closed h.id] }) := by
  unfold scopeExit
  rw [hold]
  rw [chdir_ok s w (some d0) h hfs hopen (by simpa using hauth)
    (by simpa using hreach)]
  dsimp only [Option.getD_some]
  unfold close
  dsimp only
  simp [handleClose, hopen, List.append_assoc, hold]

end HdfsPath

/-- C2: setting the working directory to a path on a different authority
than the currently bound client fails with the cross-filesystem error; the
failure returns the session exactly as it was (working directory unchanged,
cached handle still present and open), and only the temporary probe
connection is opened and closed. -/
theorem chdir_cross_authority_rejected (s : Session) (w : FsWorld)
    (h : ClientHandle) (p : PathValue)
    (hfs : s.fs = some h) (_hopen : h.closed = false)
    (hne : authorityOf w p ≠ h.auth)
    (hreach : w.reachable (authorityOf w p) = true) :
    HdfsPath.chdir s w (some p) =
      (.error .crossFilesystemError, s,
       { w with nextId := w.nextId + 1,
                trace := w.trace ++ [.opened (authorityOf w p) w.nextId,
                                     .closed w.nextId] }) ∧
    (HdfsPath.chdir s w (some p)).2.1.fs = some h := by
  have hc := HdfsPath.chdir_cross s w p h hfs hne hreach
  exact ⟨hc, by rw [hc]; exact hfs⟩

/-- Witness for C2: a session bound to `specAuthority` asked to change its
working directory to a path on `authB`. -/
theorem chdir_cross_authority_rejected_witness :
    sBound.fs = some hA ∧ hA.closed = false ∧
    authorityOf w0 pB ≠ hA.auth ∧
    w0.reachable (authorityOf w0 pB) = true ∧
    (HdfsPath.chdir sBound w0 (some pB) =
      (.error .crossFilesystemError, sBound,
       { w0 with nextId := w0.nextId + 1,
                 trace := w0.trace ++ [.opened (authorityOf w0 pB) w0.nextId,
                                       .closed w0.nextId] }) ∧
     (HdfsPath.chdir sBound w0 (some pB)).2.1.fs = some hA) :=
  ⟨rfl, rfl, by decide, rfl,
   chdir_cross_authority_rejected sBound w0 hA pB rfl rfl (by decide) rfl⟩

/-- C9: `chdir` connects to the target authority before the
cross-filesystem check, so an unreachable target surfaces the connection
error (not the cross-filesystem error), and when the call is rejected on a
reachable foreign authority a temporary connection to it is opened and
closed. -/
theorem chdir_connects_before_check (s : Session) (w : FsWorld)
    (h : ClientHandle) (p : PathValue)
    (hfs : s.fs = some h)
    (hne : authorityOf w p ≠ h.auth) :
    (w.reachable (authorityOf w p) = false →
      HdfsPath.chdir s w (some p) = (.error .connectionError, s, w)) ∧
    (w.reachable (authorityOf w p) = true →
      HdfsPath.chdir s w (some p) =
        (.error .crossFilesystemError, s,
         { w with nextId := w.nextId + 1,
                  trace := w.trace ++ [.opened (authorityOf w p) w.nextId,
                                       .closed w.nextId] })) := by
  constructor
  · intro hun
    unfold HdfsPath.chdir
    dsimp only [Option.getD_some]
    rw [HdfsPath.connect_unreach w _ hun]
  · intro hreach
    exact HdfsPath.chdir_cross s w p h hfs hne hreach

/-- Witness for C9's unreachable branch: `authB` is unreachable in
`wOnlyA`, so the cross-filesystem `chdir` surfaces the connection error. -/
theorem chdir_connects_before_check_witness :
    sBound.fs = some hA ∧ authorityOf wOnlyA pB ≠ hA.auth ∧
    wOnlyA.reachable (authorityOf wOnlyA pB) = false ∧
    HdfsPath.chdir sBound wOnlyA (some pB) =
      (.error .connectionError, sBound, wOnlyA) :=
  ⟨rfl, by decide, rfl,
   (chdir_connects_before_check sBound wOnlyA hA pB rfl (by decide)).1 rfl⟩

/-- C7: `close()` releases the cached client handle if one is present and is
idempotent — a second `close()` after a first one is a no-op and raises no
error (the operation is total). -/
theorem close_idempotent (s : Session) (w : FsWorld) :
    HdfsPath.close (HdfsPath.close s w).1 (HdfsPath.close s w).2 =
      HdfsPath.close s w ∧
    (∀ h, s.fs = some h →
      ∃ h', (HdfsPath.close s w).1.fs = some h' ∧ h'.closed = true) := by
  obtain ⟨p, fsv, old⟩ := s
  cases fsv with
  | none => exact ⟨rfl, by intro h hh; cases hh⟩
  | some h =>
    by_cases hc : h.closed = true
    · refine ⟨?_, ?_⟩
      · simp [HdfsPath.close, HdfsPath.handleClose, hc]
      · intro h0 hh0
        exact ⟨h, by simp [HdfsPath.close, HdfsPath.handleClose, hc], hc⟩
    · rw [Bool.not_eq_true] at hc
      refine ⟨?_, ?_⟩
      · simp [HdfsPath.close, HdfsPath.handleClose, hc]
      · intro h0 hh0
        exact ⟨{ h with closed := true },
          by simp [HdfsPath.close, HdfsPath.handleClose, hc], rfl⟩

/-- Witness for C7 at a bound session: the handle ends closed and the second
close changes nothing. -/
theorem close_idempotent_witness :
    HdfsPath.close (HdfsPath.close sBound w0).1 (HdfsPath.close sBound w0).2 =
      HdfsPath.close sBound w0 ∧
    (∃ h', (HdfsPath.close sBound w0).1.fs = some h' ∧ h'.closed = true) :=
  ⟨(close_idempotent sBound w0).1, (close_idempotent sBound w0).2 hA rfl⟩

/-- C10: `close()` on a session that has never resolved a client handle is a
no-op: no connection is opened, no session or world state changes, and no
error is raised (the operation is total). -/
theorem close_unresolved_noop (s : Session) (w : FsWorld)
    (hfs : s.fs = none) : HdfsPath.close s w = (s, w) := by
  unfold HdfsPath.close
  rw [hfs]

/-- Witness for C10: closing a fresh session changes nothing. -/
theorem close_unresolved_noop_witness :
    sFresh.fs = none ∧ HdfsPath.close sFresh w0 = (sFresh, w0) :=
  ⟨rfl, close_unresolved_noop sFresh w0 rfl⟩

/-- C4: `listdir` fails with the not-a-directory error carrying the
offending path when the path is not a directory — before any listing (the
world, in particular its event trace, is returned unchanged); otherwise it
returns exactly the children obtained by joining the directory with each
entry name matching the pattern under Unix shell wildcard rules; concretely,
a directory containing `foo, bar, tar, foo.ext, bar.ext, tar.ext` listed
with pattern `"f*"` yields exactly `foo` and `foo.ext`. -/
theorem listdir_spec (s : Session) (w : FsWorld) (pattern : Option String) :
    (w.isDir s.p = false →
      HdfsPath.listdir s w pattern = (.error (.notADirectory s.p), s, w)) ∧
    (w.isDir s.p = true →
      HdfsPath.listdir s w pattern =
        (.ok (((w.children s.p).filter
            (fun n => fnmatch n (pattern.getD "*"))).map
          (PathValue.joinChild s.p)),
         s, { w with trace := w.trace ++ [.listed s.p] })) ∧
    HdfsPath.listdir sList wList (some "f*") =
      (.ok [PathValue.joinChild listDirP "foo",
            PathValue.joinChild listDirP "foo.ext"],
       sList, { wList with trace := wList.trace ++ [.listed listDirP] }) := by
  refine ⟨?_, ?_, ?_⟩
  · intro hdir
    unfold HdfsPath.listdir
    dsimp only
    rw [if_neg (by rw [hdir]; exact Bool.false_ne_true)]
  · intro hdir
    unfold HdfsPath.listdir
    dsimp only
    rw [if_pos hdir]
  · rfl

/-- Witness for C4: listing a file entry fails with the not-a-directory
error carrying that path, with the world untouched. -/
theorem listdir_spec_witness :
    wList.isDir sNotDir.p = false ∧
    HdfsPath.listdir sNotDir wList none =
      (.error (.notADirectory sNotDir.p), sNotDir, wList) :=
  ⟨rfl, (listdir_spec sNotDir wList none).1 rfl⟩

/-- Counterexample to C5 as stated: on a session already bound to an open
handle on `specAuthority` (connection 0), a same-authority `chdir` — the
very operation scoped enter performs — opens a *second* connection to the
same authority (connection 1): the trace ends up with two `opened` events
for `specAuthority`, refuting "no second connection to the same authority
is opened by operations on those paths". -/
theorem chdir_second_connection_cex :
    (HdfsPath.chdir sBound w0 none).1 = .ok () ∧
    (HdfsPath.chdir sBound w0 none).2.2.trace =
      [Event.opened specAuthority 0, Event.opened specAuthority 1,
       Event.setWd 0 pA, Event.closed 1] ∧
    ((HdfsPath.chdir sBound w0 none).2.2.trace.countP
      (fun e => match e with
        | Event.opened a _ => a == specAuthority
        | _ => false)) = 2 :=
  ⟨rfl, rfl, rfl⟩

/-- C5 amended: the session caches at most one client handle — the `fs`
property connects only when no handle is cached and thereafter returns the
cached handle unchanged, sharing it across every operation that uses the
session's client — but `chdir` (and hence scoped enter) additionally opens
one temporary connection to the target authority, even when it equals the
session's own, closing it before the call returns. -/
theorem client_handle_cached_amended (s : Session) (w : FsWorld) :
    (∀ h, s.fs = some h → HdfsPath.fs s w = (.ok h, s, w)) ∧
    (s.fs = none → w.reachable (authorityOf w s.p) = true →
      HdfsPath.fs s w =
        (.ok ⟨w.nextId, authorityOf w s.p,
              w.initialWd (authorityOf w s.p), false⟩,
         { s with fs := some ⟨w.nextId, authorityOf w s.p,
                              w.initialWd (authorityOf w s.p), false⟩ },
         { w with nextId := w.nextId + 1,
                  trace := w.trace ++
                    [.opened (authorityOf w s.p) w.nextId] })) ∧
    (∀ h, s.fs = some h → h.closed = false →
      authorityOf w s.p = h.auth → w.reachable (authorityOf w s.p) = true →
      HdfsPath.chdir s w none =
        (.ok (), { s with fs := some { h with wd := s.p } },
         { w with nextId := w.nextId + 1,
                  trace := w.trace ++
                    [.opened h.auth w.nextId, .setWd h.id s.p,
                     .closed w.nextId] })) := by
  refine ⟨?_, ?_, ?_⟩
  · intro h hfs
    exact HdfsPath.fs_cached s w h hfs
  · intro hfs hreach
    exact HdfsPath.fs_fresh s w hfs hreach
  · intro h hfs hopen hauth hreach
    exact HdfsPath.chdir_ok s w none h hfs hopen hauth hreach

/-- Witness for the amended C5: the bound session's handle is returned as
cached, with no connection opened. -/
theorem client_handle_cached_amended_witness :
    sBound.fs = some hA ∧
    HdfsPath.fs sBound w0 = (.ok hA, sBound, w0) :=
  ⟨rfl, (client_handle_cached_amended sBound w0).1 hA rfl⟩

/-- Counterexample to C6 as stated: after `close()`, the session still
caches the now-closed handle (id 0), and the next handle-using operation
(`getcwd`) reuses that closed handle and fails — no fresh connection is
established (the trace gains no `opened` event). -/
theorem close_no_reconnect_cex :
    (HdfsPath.close sBound w0).1.fs = some ⟨0, specAuthority, wdA, true⟩ ∧
    HdfsPath.getcwd (HdfsPath.close sBound w0).1 (HdfsPath.close sBound w0).2 =
      (.error .closedHandle, (HdfsPath.close sBound w0).1,
       (HdfsPath.close sBound w0).2) ∧
    (HdfsPath.getcwd (HdfsPath.close sBound w0).1
        (HdfsPath.close sBound w0).2).2.2.trace =
      [Event.opened specAuthority 0, Event.closed 0] :=
  ⟨rfl, rfl, rfl⟩

/-- C6 amended: after a session is closed, its client handle is closed; the
session however is not re-created on the same path object — `close` does
not clear the cached handle, so the next resolution of the client returns
the same, now closed, handle instead of establishing a fresh connection. -/
theorem close_marks_handle_no_refresh (s : Session) (w : FsWorld)
    (h : ClientHandle) (hfs : s.fs = some h) :
    ∃ h', (HdfsPath.close s w).1.fs = some h' ∧ h'.closed = true ∧
      h'.id = h.id ∧
      HdfsPath.fs (HdfsPath.close s w).1 (HdfsPath.close s w).2 =
        (.ok h', (HdfsPath.close s w).1, (HdfsPath.close s w).2) := by
  by_cases hc : h.closed = true
  · have hcl : HdfsPath.close s w = ({ s with fs := some h }, w) := by
      unfold HdfsPath.close HdfsPath.handleClose
      rw [hfs]
      dsimp only
      rw [if_pos hc]
    refine ⟨h, ?_, hc, rfl, ?_⟩
    · rw [hcl]
    · rw [hcl]
      exact HdfsPath.fs_cached _ _ h rfl
  · rw [Bool.not_eq_true] at hc
    have hcl : HdfsPath.close s w =
        ({ s with fs := some { h with closed := true } },
         { w with trace := w.trace ++ [.closed h.id] }) := by
      unfold HdfsPath.close
      rw [hfs]
      dsimp only
      rw [HdfsPath.handleClose_open h w hc]
    refine ⟨{ h with closed := true }, ?_, rfl, rfl, ?_⟩
    · rw [hcl]
    · rw [hcl]
      exact HdfsPath.fs_cached _ _ _ rfl

/-- Witness for the amended C6 at the bound session. -/
theorem close_marks_handle_no_refresh_witness :
    sBound.fs = some hA ∧
    ∃ h', (HdfsPath.close sBound w0).1.fs = some h' ∧ h'.closed = true ∧
      h'.id = hA.id ∧
      HdfsPath.fs (HdfsPath.close sBound w0).1 (HdfsPath.close sBound w0).2 =
        (.ok h', (HdfsPath.close sBound w0).1, (HdfsPath.close sBound w0).2) :=
  ⟨rfl, close_marks_handle_no_refresh sBound w0 hA rfl⟩

/-- C1: scoped acquisition on a fresh session saves the current working
directory on enter and sets the working directory to the path; on every
exit of the scope — whatever the body's outcome `r`, normal value or error
— the saved working directory is restored first and then the session is
closed, in that order (visible in the event trace: the restoring `setWd`
precedes the `closed` event of the session's handle), and an error raised
inside the scope is not suppressed: it propagates after the restore and
close have run. -/
theorem scoped_acquisition {α : Type}
    (s : Session) (w : FsWorld)
    (body : Session → FsWorld → Except Err α × Session × FsWorld)
    (hfs : s.fs = none)
    (hreach : w.reachable (authorityOf w s.p) = true)
    (hinit : (w.initialWd (authorityOf w s.p)).authority =
      some (authorityOf w s.p))
    (hbody : FrameBody (authorityOf w s.p) w.reachable w.defaultAuth
      w.initialWd body) :
    ∃ sIn wIn r s2 w2 h2,
      HdfsPath.enter s w = (.ok (), sIn, wIn) ∧
      sIn.oldDir = some (w.initialWd (authorityOf w s.p)) ∧
      sIn.fs = some ⟨w.nextId, authorityOf w s.p, s.p, false⟩ ∧
      body sIn wIn = (r, s2, w2) ∧
      s2.fs = some h2 ∧ h2.closed = false ∧
      HdfsPath.withPath s w body =
        (r, { s2 with fs := some { h2 with
                wd := w.initialWd (authorityOf w s.p), closed := true } },
         { w2 with nextId := w2.nextId + 1,
                   trace := w2.trace ++
                     [.opened (authorityOf w s.p) w2.nextId,
                      .setWd h2.id (w.initialWd (authorityOf w s.p)),
                      .closed w2.nextId, .closed h2.id] }) ∧
      (∀ e, r = .error e → (HdfsPath.withPath s w body).1 = .error e) := by
  have hget : HdfsPath.getcwd s w =
      (.ok (w.initialWd (authorityOf w s.p)),
       { s with fs := some ⟨w.nextId, authorityOf w s.p,
                            w.initialWd (authorityOf w s.p), false⟩ },
       { w with nextId := w.nextId + 1,
                trace := w.trace ++
                  [.opened (authorityOf w s.p) w.nextId] }) := by
    unfold HdfsPath.getcwd
    rw [HdfsPath.fs_fresh s w hfs hreach]
    simp
  have henter : HdfsPath.enter s w =
      (.ok (),
       { s with fs := some ⟨w.nextId, authorityOf w s.p, s.p, false⟩,
                oldDir := some (w.initialWd (authorityOf w s.p)) },
       { w with nextId := w.nextId + 2,
                trace := w.trace ++
                  [.opened (authorityOf w s.p) w.nextId,
                   .opened (authorityOf w s.p) (w.nextId + 1),
                   .setWd w.nextId s.p,
                   .closed (w.nextId + 1)] }) := by
    unfold HdfsPath.enter
    rw [hget]
    dsimp only
    rw [HdfsPath.chdir_ok
      { s with fs := some ⟨w.nextId, authorityOf w s.p,
                           w.initialWd (authorityOf w s.p), false⟩,
               oldDir := some (w.initialWd (authorityOf w s.p)) }
      { w with nextId := w.nextId + 1,
               trace := w.trace ++ [.opened (authorityOf w s.p) w.nextId] }
      none
      ⟨w.nextId, authorityOf w s.p, w.initialWd (authorityOf w s.p), false⟩
      rfl rfl rfl hreach]
    simp [List.append_assoc]
  obtain ⟨r, s2, w2, hb⟩ :
      ∃ r s2 w2,
        body ({ s with fs := some ⟨w.nextId, authorityOf w s.p, s.p, false⟩,
                       oldDir := some (w.initialWd (authorityOf w s.p)) })
          ({ w with nextId := w.nextId + 2,
                    trace := w.trace ++
                      [.opened (authorityOf w s.p) w.nextId,
                       .opened (authorityOf w s.p) (w.nextId + 1),
                       .setWd w.nextId s.p,
                       .closed (w.nextId + 1)] }) = (r, s2, w2) :=
    ⟨_, _, _, rfl⟩
  obtain ⟨hold2, ⟨h2, hfs2, hauth2, hopen2⟩, hwr, hwd, hwi⟩ :=
    hbody
      { s with fs := some ⟨w.nextId, authorityOf w s.p, s.p, false⟩,
               oldDir := some (w.initialWd (authorityOf w s.p)) }
      { w with nextId := w.nextId + 2,
               trace := w.trace ++
                 [.opened (authorityOf w s.p) w.nextId,
                  .opened (authorityOf w s.p) (w.nextId + 1),
                  .setWd w.nextId s.p,
                  .closed (w.nextId + 1)] }
      r s2 w2
      ⟨⟨w.nextId, authorityOf w s.p, s.p, false⟩, rfl, rfl, rfl⟩
      rfl rfl rfl hb
  have holdd : s2.oldDir = some (w.initialWd (authorityOf w s.p)) := by
    rw [hold2]
  have hauthx : authorityOf w2 (w.initialWd (authorityOf w s.p)) = h2.auth := by
    show (w.initialWd (authorityOf w s.p)).authority.getD w2.defaultAuth =
      h2.auth
    rw [hinit, Option.getD_some, hauth2]
  have hreachx :
      w2.reachable (authorityOf w2 (w.initialWd (authorityOf w s.p))) = true := by
    rw [hauthx, hwr, hauth2]
    exact hreach
  have hexit := HdfsPath.scopeExit_ok s2 w2 h2
    (w.initialWd (authorityOf w s.p)) holdd hfs2 hopen2 hauthx hreachx
  have hwith : HdfsPath.withPath s w body =
      (r, { s2 with fs := some { h2 with
              wd := w.initialWd (authorityOf w s.p), closed := true } },
       { w2 with nextId := w2.nextId + 1,
                 trace := w2.trace ++
                   [.opened (authorityOf w s.p) w2.nextId,
                    .setWd h2.id (w.initialWd (authorityOf w s.p)),
                    .closed w2.nextId, .closed h2.id] }) := by
    unfold HdfsPath.withPath
    rw [henter]
    dsimp only
    rw [hb]
    dsimp only
    rw [hexit]
    dsimp only
    rw [hauth2]
  refine ⟨_, _, r, s2, w2, h2, henter, rfl, rfl, hb, hfs2, hopen2, hwith, ?_⟩
  intro e he
  rw [hwith, he]

/-- Witness for C1: a fresh session entered in `w0` with a body that raises;
the error propagates, after the restore and the close. -/
theorem scoped_acquisition_witness :
    sFresh.fs = none ∧
    w0.reachable (authorityOf w0 sFresh.p) = true ∧
    (w0.initialWd (authorityOf w0 sFresh.p)).authority =
      some (authorityOf w0 sFresh.p) ∧
    (∃ sIn wIn r s2 w2 h2,
      HdfsPath.enter sFresh w0 = (.ok (), sIn, wIn) ∧
      sIn.oldDir = some (w0.initialWd (authorityOf w0 sFresh.p)) ∧
      sIn.fs = some ⟨w0.nextId, authorityOf w0 sFresh.p, sFresh.p, false⟩ ∧
      raisingBody sIn wIn = (r, s2, w2) ∧
      s2.fs = some h2 ∧ h2.closed = false ∧
      HdfsPath.withPath sFresh w0 raisingBody =
        (r, { s2 with fs := some { h2 with
                wd := w0.initialWd (authorityOf w0 sFresh.p), closed := true } },
         { w2 with nextId := w2.nextId + 1,
                   trace := w2.trace ++
                     [.opened (authorityOf w0 sFresh.p) w2.nextId,
                      .setWd h2.id (w0.initialWd (authorityOf w0 sFresh.p)),
                      .closed w2.nextId, .closed h2.id] }) ∧
      (∀ e, r = .error e →
        (HdfsPath.withPath sFresh w0 raisingBody).1 = .error e)) :=
  ⟨rfl, rfl, rfl,
   scoped_acquisition sFresh w0 raisingBody rfl rfl rfl (by
    intro s1 w1 r s2 w2 hh hr hd hi heq
    rw [show raisingBody s1 w1 =
        ((.error .connectionError : Except Err Unit), s1, w1) from rfl] at heq
    injection heq with e1 e23
    injection e23 with e2 e3
    subst e2
    subst e3
    exact ⟨rfl, hh, hr, hd, hi⟩)⟩
